import Mathlib

/-!
Verification of the worktree-management core of the hatchet repository
(`src/helpers/git.ts`), shallowly embedded in Lean.

External effects (child-process invocations and filesystem probes) are
modelled by an oracle `SysEnv` that maps each command string / path to the
outcome the environment would produce; the module-level caches
(`cachedRepoRoot`, `cachedWorktrees`) are modelled by an explicit state
record `GitState` threaded through every operation.  JavaScript strings are
modelled as Lean `String` (lists of characters); all string manipulation is
implemented below by structurally recursive functions so that every
definition evaluates by `rfl`/`decide`.
-/

/-! ## String primitives (structural models of the JS string operations used) -/

/-- Is `pre` a prefix of `l`? (model of `String.prototype.startsWith`). -/
def listPrefixOf : List Char → List Char → Bool
  | [], _ => true
  | _ :: _, [] => false
  | a :: as, b :: bs => a == b && listPrefixOf as bs

def strStartsWith (s pre : String) : Bool := listPrefixOf pre.data s.data

def strEndsWith (s suf : String) : Bool := listPrefixOf suf.data.reverse s.data.reverse

/-- Model of `s.slice(n)` / dropping `n` leading characters. -/
def strDrop (s : String) (n : Nat) : String := String.mk (s.data.drop n)

/-- Model of `s.slice(0, n)`. -/
def strTake (s : String) (n : Nat) : String := String.mk (s.data.take n)

/-- Split on a single separator character, keeping empty fields
(model of `s.split("\n")` and `s.split("|")`, which use a literal
one-character separator). -/
def splitOnCharAux (sep : Char) : List Char → List Char → List (List Char)
  | [], cur => [cur.reverse]
  | c :: rest, cur =>
    if c == sep then cur.reverse :: splitOnCharAux sep rest []
    else splitOnCharAux sep rest (c :: cur)

def splitLines (s : String) : List String := (splitOnCharAux '\n' s.data []).map String.mk

def splitPipes (s : String) : List String := (splitOnCharAux '|' s.data []).map String.mk

/-- The JS regex class `\s` (whitespace), by code point. -/
def jsWhitespace (c : Char) : Bool :=
  decide (c.toNat = 32 ∨ c.toNat = 9 ∨ c.toNat = 10 ∨ c.toNat = 13 ∨ c.toNat = 11 ∨
    c.toNat = 12 ∨ c.toNat = 160 ∨ c.toNat = 5760 ∨
    (8192 ≤ c.toNat ∧ c.toNat ≤ 8202) ∨ c.toNat = 8232 ∨ c.toNat = 8233 ∨
    c.toNat = 8239 ∨ c.toNat = 8287 ∨ c.toNat = 12288 ∨ c.toNat = 65279)

/-- Model of `String.prototype.trim`: strip `\s` characters from both ends. -/
def jsTrim (s : String) : String :=
  String.mk (((s.data.dropWhile jsWhitespace).reverse.dropWhile jsWhitespace).reverse)

/-- Model of `s.split(/\s+/)`: each maximal whitespace run is one separator;
a leading or trailing run produces an empty field, and splitting the empty
string yields `[""]`, as in JS. -/
def jsSplitWsAux : Bool → List Char → List Char → List (List Char)
  | _, [], cur => [cur.reverse]
  | inGap, c :: rest, cur =>
    if jsWhitespace c then
      if inGap then jsSplitWsAux true rest []
      else cur.reverse :: jsSplitWsAux true rest []
    else jsSplitWsAux false rest (c :: cur)

def jsSplitWs (s : String) : List String := (jsSplitWsAux false s.data []).map String.mk

/-- Decimal value of a digit string (helper for the `Number()` model). -/
def digitsToNat : List Char → Nat → Nat
  | [], acc => acc
  | c :: rest, acc => digitsToNat rest (acc * 10 + (c.toNat - 48))

def strToNatOpt (s : String) : Option Nat :=
  if s.data ≠ [] ∧ s.data.all Char.isDigit then some (digitsToNat s.data 0) else none

/-- Model of JS `Number()` on the inputs that occur here (integer literals):
surrounding whitespace is ignored, the empty string is `0`, an optional sign
followed by decimal digits parses as an integer, and anything else is `NaN`
(`none`). -/
def jsToNumber (s : String) : Option Int :=
  let t := jsTrim s
  if t = "" then some 0
  else if strStartsWith t "-" then (strToNatOpt (strDrop t 1)).map fun n => -(n : Int)
  else if strStartsWith t "+" then (strToNatOpt (strDrop t 1)).map fun n => (n : Int)
  else (strToNatOpt t).map fun n => (n : Int)

/-- `parts[i]` followed by `|| 0`: an absent element (`undefined`) and a
`NaN` parse both collapse to `0`; any other parsed number is kept. -/
def jsNumAt (parts : List String) (i : Nat) : Int :=
  match parts.get? i with
  | none => 0
  | some s =>
    match jsToNumber s with
    | none => 0
    | some n => n

/-! ## `sanitizeBranch` (git.ts lines 107-113)

```
name.toLowerCase()
    .replace(/\s+/g, "-")
    .replace(/[^a-z0-9\-_/.]/g, "")
    .replace(/^[-.]+|[-.]+$/g, "");
```
-/

/-- The character class `[a-z0-9\-_/.]` of the third `replace`, by code
point: 97-122 = `a`-`z`, 48-57 = `0`-`9`, 45 = `-`, 95 = `_`, 47 = `/`,
46 = `.`. -/
def isAllowedChar (c : Char) : Bool :=
  decide ((97 ≤ c.toNat ∧ c.toNat ≤ 122) ∨ (48 ≤ c.toNat ∧ c.toNat ≤ 57) ∨
    c.toNat = 45 ∨ c.toNat = 95 ∨ c.toNat = 47 ∨ c.toNat = 46)

/-- The class `[-.]` of the fourth `replace`: 45 = `-`, 46 = `.`. -/
def isEdgeChar (c : Char) : Bool := decide (c.toNat = 45 ∨ c.toNat = 46)

/-- ASCII model of `String.prototype.toLowerCase` (65-90 = `A`-`Z` map to
97-122; the ASCII range is all that can survive the later character
filter). -/
def jsToLowerChar (c : Char) : Char :=
  if 65 ≤ c.toNat ∧ c.toNat ≤ 90 then Char.ofNat (c.toNat + 32) else c

/-- `replace(/\s+/g, "-")`: each maximal whitespace run becomes one dash.
The flag records whether the previous character was part of a run already
replaced. -/
def collapseWsAux : Bool → List Char → List Char
  | _, [] => []
  | prevWs, c :: rest =>
    if jsWhitespace c then
      if prevWs then collapseWsAux true rest
      else '-' :: collapseWsAux true rest
    else c :: collapseWsAux false rest

/-- `replace(/^[-.]+|[-.]+$/g, "")`: the regex deletes the maximal leading
run and the maximal trailing run of `[-.]` characters (when the whole string
is such a run, the leading alternative consumes all of it), which is exactly
dropping edge characters from both ends. -/
def stripEdges (l : List Char) : List Char :=
  ((l.dropWhile isEdgeChar).reverse.dropWhile isEdgeChar).reverse

def sanitizeChars (l : List Char) : List Char :=
  stripEdges ((collapseWsAux false (l.map jsToLowerChar)).filter isAllowedChar)

/-- git.ts lines 107-113. -/
def sanitizeBranch (name : String) : String := String.mk (sanitizeChars name.data)

/-! ## Data model and effect oracle -/

/-- Error identity (the message of a raised JS error).  Re-raising
"unchanged" is equality of this value. -/
abbrev GitError := String

/-- `src/types` `Worktree` as produced by `worktrees()`: branch, path, and
the optional HEAD hash. -/
structure Worktree where
  branch : String
  path : String
  head : Option String
deriving Repr, DecidableEq

/-- git.ts lines 258-264. -/
structure CommitInfo where
  hash : String
  message : String
  author : Option String
  date : Option String
  relativeDate : Option String
deriving Repr, DecidableEq

/-- git.ts lines 266-275.  `author`/`date`/`relativeDate` are `Option`
because the JS code stores `undefined` in them when a log line has fewer
than five fields; counts are `Int` because they come from `Number()`. -/
structure BranchStatus where
  ahead : Int
  behind : Int
  dirty : Bool
  staged : Nat
  unstaged : Nat
  untracked : Nat
  lastCommit : Option CommitInfo
  recentCommits : List CommitInfo
deriving Repr, DecidableEq

/-- The module-level caches of git.ts lines 6-7. -/
structure GitState where
  cachedRepoRoot : Option String
  cachedWorktrees : Option (List Worktree)
deriving Repr, DecidableEq

/-- The oracle for external effects: for each command string, the outcome
of `execSync` (stdout on success, the raised error otherwise), and the
filesystem probes used by orphan recovery.  A deterministic oracle models
one call: each command is executed at most once per operation with a given
cache state, so determinism is harmless. -/
structure SysEnv where
  cwd : String
  exec : String → Except GitError String
  fsExists : String → Bool
  fsRead : String → Except GitError String
  fsUnlink : String → Except GitError Unit

/-- git.ts lines 9-12. -/
def clearCache (_st : GitState) : GitState :=
  { cachedRepoRoot := none, cachedWorktrees := none }

/-! ## Path helpers (Node `path` module, modelled for the normalized POSIX
paths that occur here: no trailing slashes, no `.`/`..` segments) -/

def pathJoin (a b : String) : String :=
  if a = "" then b else if strEndsWith a "/" then a ++ b else a ++ "/" ++ b

def pathDirname (p : String) : String :=
  let pre := (p.data.reverse.dropWhile fun c => c != '/').reverse
  if pre = [] then "."
  else if pre = ['/'] then "/"
  else String.mk pre.dropLast

def pathBasename (p : String) : String :=
  String.mk (p.data.reverse.takeWhile fun c => c != '/').reverse

def pathResolve (cwd p : String) : String :=
  if strStartsWith p "/" then p else pathJoin cwd p

/-! ## RepoLocator (git.ts lines 23-44) -/

/-- git.ts lines 23-40: resolve the parent of the common git dir, caching
the result; on failure return `process.cwd()` without caching. -/
def repoRoot (env : SysEnv) (st : GitState) : String × GitState :=
  match st.cachedRepoRoot with
  | some r => (r, st)
  | none =>
    match env.exec "git rev-parse --git-common-dir" with
    | .ok out =>
      let gitDir := pathResolve env.cwd (jsTrim out)
      let root := pathDirname gitDir
      (root, { st with cachedRepoRoot := some root })
    | .error _ => (env.cwd, st)

/-- git.ts lines 42-44. -/
def repoName (env : SysEnv) (st : GitState) : String × GitState :=
  let (r, st) := repoRoot env st
  (pathBasename r, st)

/-! ## WorktreeRegistry (git.ts lines 46-105) -/

/-- The record being accumulated by the porcelain parser; every field
starts out absent (`undefined`). -/
structure RawWorktree where
  path : Option String := none
  head : Option String := none
  branch : Option String := none
  isBare : Bool := false
deriving Repr, DecidableEq

/-- JS truthiness of a string-or-undefined value: `undefined` and `""` are
falsy. -/
def jsTruthy : Option String → Bool
  | none => false
  | some s => !(s == "")

/-- The parser loop of git.ts lines 59-81 over the porcelain lines. -/
def parseWtLoop : List String → RawWorktree → List RawWorktree → List RawWorktree
  | [], current, acc => if jsTruthy current.path then acc ++ [current] else acc
  | line :: rest, current, acc =>
    if strStartsWith line "worktree " then
      let acc := if jsTruthy current.path then acc ++ [current] else acc
      parseWtLoop rest { path := some (strDrop line 9) } acc
    else if strStartsWith line "HEAD " then
      parseWtLoop rest { current with head := some (strDrop line 5) } acc
    else if strStartsWith line "branch " then
      let ref := strDrop line 7
      let b := if strStartsWith ref "refs/heads/" then strDrop ref 11 else ref
      parseWtLoop rest { current with branch := some b } acc
    else if line = "bare" then
      parseWtLoop rest { current with isBare := true } acc
    else if line = "" ∧ jsTruthy current.path then
      parseWtLoop rest {} (acc ++ [current])
    else
      parseWtLoop rest current acc

/-- git.ts lines 56-90: parse, then drop bare entries and entries without a
truthy branch.  `.getD ""` stands for the TS non-null assertion `!`; the
filter guarantees the branch is a nonempty string, and every accumulated
record was pushed with a truthy path. -/
def parseWorktrees (output : String) : List Worktree :=
  let result := parseWtLoop (splitLines output) {} []
  (result.filter fun wt => !wt.isBare && jsTruthy wt.branch).map fun wt =>
    { branch := wt.branch.getD "", path := wt.path.getD "", head := wt.head }

/-- git.ts lines 46-96: list worktrees with caching; a failed query returns
`[]` and caches nothing (`repoRoot` has already run and may have cached the
root). -/
def worktrees (env : SysEnv) (st : GitState) : List Worktree × GitState :=
  match st.cachedWorktrees with
  | some l => (l, st)
  | none =>
    let (_, st) := repoRoot env st
    match env.exec "git worktree list --porcelain" with
    | .error _ => ([], st)
    | .ok output =>
      let l := parseWorktrees output
      (l, { st with cachedWorktrees := some l })

/-- git.ts lines 102-105. -/
def worktreePath (env : SysEnv) (branch : String) (st : GitState) :
    Option String × GitState :=
  let (l, st) := worktrees env st
  ((l.find? fun w => w.branch == branch).map Worktree.path, st)

/-! ## WorktreeLifecycle: `createWorktree` (git.ts lines 115-161) -/

def slashToDash (s : String) : String :=
  String.mk (s.data.map fun c => if c == '/' then '-' else c)

/-- git.ts line 124: target directory `{parentDir}/{name}.{folderSuffix}`
with `folderSuffix` the sanitized name with `/` replaced by `-`
(line 123). -/
def worktreeDirFor (root name sanitized : String) : String :=
  pathJoin (pathDirname root) (name ++ "." ++ slashToDash sanitized)

/-- git.ts lines 127-144: probe a local branch ref, then a remote-tracking
ref; both probes swallow their errors. -/
def branchExistsProbe (env : SysEnv) (sanitized : String) : Bool :=
  match env.exec ("git show-ref --verify --quiet refs/heads/" ++ sanitized) with
  | .ok _ => true
  | .error _ =>
    match env.exec ("git show-ref --verify --quiet refs/remotes/origin/" ++ sanitized) with
    | .ok _ => true
    | .error _ => false

/-- git.ts lines 146-157: the `git worktree add` command actually run. -/
def worktreeAddCmd (branchExists : Bool) (worktreeDir sanitized : String) : String :=
  if branchExists then
    "git worktree add \"" ++ worktreeDir ++ "\" \"" ++ sanitized ++ "\""
  else
    "git worktree add -b \"" ++ sanitized ++ "\" \"" ++ worktreeDir ++ "\""

/-- git.ts lines 115-161.  The cache is cleared at entry; `repoRoot` /
`repoName` then repopulate the root cache; a failure of the add command
propagates (the final `clearCache` of line 159 is only reached on
success). -/
def createWorktree (env : SysEnv) (branch : String) (st : GitState) :
    Except GitError String × GitState :=
  let st := clearCache st
  let sanitized := sanitizeBranch branch
  let (root, st) := repoRoot env st
  let (name, st) := repoName env st
  let worktreeDir := worktreeDirFor root name sanitized
  let branchExists := branchExistsProbe env sanitized
  match env.exec (worktreeAddCmd branchExists worktreeDir sanitized) with
  | .error e => (.error e, st)
  | .ok _ => (.ok worktreeDir, clearCache st)

/-! ## WorktreeLifecycle: `removeWorktree` (git.ts lines 163-235) -/

/-- git.ts lines 181-185: `gitContent.match(/^gitdir:\s*(.+)$/m)` followed
by `.trim()` on the capture.  The regex matches on the first line that
starts with `gitdir:` and has a nonempty remainder; trimming the capture
equals trimming that remainder (the `\s*` only moves whitespace that the
trim removes anyway). -/
def parseGitdir (content : String) : Option String :=
  (splitLines content).findSome? fun line =>
    if strStartsWith line "gitdir:" ∧ strDrop line 7 ≠ "" then
      some (jsTrim (strDrop line 7))
    else none

/-- git.ts lines 169-221: the `try { git worktree remove } catch { ... }`
block.  Returns `.error e` exactly when the original removal error `e` is
re-raised.  The `repoRoot` calls are the `cwd: repoRoot()` arguments; the
prune outcomes are ignored (lines 192-199, 212-219). -/
def removeWorktreeAttempt (env : SysEnv) (wtPath : String) (st : GitState) :
    Except GitError Unit × GitState :=
  let (_, st) := repoRoot env st
  match env.exec ("git worktree remove \"" ++ wtPath ++ "\" --force") with
  | .ok _ => (.ok (), st)
  | .error error =>
    let gitFilePath := pathJoin wtPath ".git"
    if env.fsExists gitFilePath then
      match env.fsRead gitFilePath with
      | .error _ => (.error error, st)
      | .ok gitContent =>
        match parseGitdir gitContent with
        | none => (.ok (), st)
        | some gitdir =>
          if !(env.fsExists gitdir) then
            match env.fsUnlink gitFilePath with
            | .error _ => (.error error, st)
            | .ok _ =>
              let (_, st) := repoRoot env st
              let _ := env.exec "git worktree prune"
              (.ok (), st)
          else (.error error, st)
    else
      let (_, st) := repoRoot env st
      let _ := env.exec "git worktree prune"
      (.ok (), st)

/-- git.ts lines 163-235.  When the branch has no attached worktree the
call returns at line 167 (before any mutation and before the final
`clearCache`); when the attempt re-raises, the error propagates and lines
223-234 are skipped.  The `git branch -D` of the `deleteBranch` block has
its outcome ignored (lines 224-231); its `cwd: repoRoot()` argument is the
threaded `repoRoot` call. -/
def removeWorktree (env : SysEnv) (branch : String) (deleteBranch : Bool)
    (st : GitState) : Except GitError Unit × GitState :=
  let st := clearCache st
  let (wtOpt, st) := worktreePath env branch st
  match wtOpt with
  | none => (.ok (), st)
  | some wtPath =>
    match removeWorktreeAttempt env wtPath st with
    | (.error e, st) => (.error e, st)
    | (.ok _, st) =>
      let st :=
        if deleteBranch then
          let (_, st) := repoRoot env st
          let _ := env.exec ("git branch -D \"" ++ branch ++ "\"")
          st
        else st
      (.ok (), clearCache st)

/-! ## BranchStatusEngine: `getBranchStatus` (git.ts lines 277-378) -/

def emptyBranchStatus : BranchStatus :=
  { ahead := 0, behind := 0, dirty := false, staged := 0, unstaged := 0,
    untracked := 0, lastCommit := none, recentCommits := [] }

/-- git.ts lines 291-297, in source order. -/
def refsToTry : List String :=
  ["@\x7bupstream\x7d", "origin/main", "origin/master", "main", "master"]

def revListCmd (ref : String) : String :=
  "git rev-list --left-right --count " ++ ref ++ "...HEAD"

def gitLogCmd : String := "git log -5 --format=\"%H|%s|%an|%ai|%ar\""

/-- git.ts lines 299-314: try each ref in order; the first whose `rev-list`
call succeeds sets `behind`/`ahead` (left and right counts of the trimmed
output, `|| 0`) and stops the loop; a failing ref is skipped. -/
def aheadBehindLoop (env : SysEnv) : List String → BranchStatus → BranchStatus
  | [], status => status
  | ref :: rest, status =>
    match env.exec (revListCmd ref) with
    | .error _ => aheadBehindLoop env rest status
    | .ok out =>
      let parts := jsSplitWs (jsTrim out)
      { status with behind := jsNumAt parts 0, ahead := jsNumAt parts 1 }

/-- git.ts lines 323-338: classification of one `git status --porcelain`
line.  `line[0]`/`line[1]` are `undefined` past the end of the line, and
`undefined !== " " && undefined !== "?"` evaluates to true in JS, which the
`Option Char` inequalities reproduce. -/
def classifyStatusLine (line : String) (status : BranchStatus) : BranchStatus :=
  if line = "" then status
  else
    let index := line.data.get? 0
    let working := line.data.get? 1
    if strStartsWith line "??" then { status with untracked := status.untracked + 1 }
    else
      let status :=
        if index ≠ some ' ' ∧ index ≠ some '?' then
          { status with staged := status.staged + 1 }
        else status
      if working ≠ some ' ' ∧ working ≠ some '?' then
        { status with unstaged := status.unstaged + 1 }
      else status

/-- git.ts lines 353-362: one log line.  `none` models the `TypeError`
raised by `message.length` when the line has no `|` (fewer than two
fields); the remaining fields are stored even when `undefined`. -/
def parseCommitLine (line : String) : Option CommitInfo :=
  let parts := splitPipes line
  match parts.get? 1 with
  | none => none
  | some message =>
    some { hash := strTake (parts.headD "") 7
           message := if message.data.length > 50 then strTake message 47 ++ "..." else message
           author := parts.get? 2
           date := parts.get? 3
           relativeDate := parts.get? 4 }

/-- The loop of git.ts lines 353-364: empty lines are skipped; a malformed
line raises inside the `try`, keeping the commits pushed so far
(`.error acc`) and aborting the rest of the block. -/
def addCommitsLoop : List String → List CommitInfo → Except (List CommitInfo) (List CommitInfo)
  | [], acc => .ok acc
  | line :: rest, acc =>
    if line = "" then addCommitsLoop rest acc
    else
      match parseCommitLine line with
      | none => .error acc
      | some ci => addCommitsLoop rest (acc ++ [ci])

/-- git.ts lines 343-372: the recent-history block.  On the exception path
the `lastCommit` assignment of lines 367-369 is never reached. -/
def addCommits (logOutput : String) (status : BranchStatus) : BranchStatus :=
  match addCommitsLoop (splitLines logOutput) [] with
  | .error commits => { status with recentCommits := commits }
  | .ok commits =>
    let status := { status with recentCommits := commits }
    if commits.length > 0 then { status with lastCommit := commits.head? } else status

/-- git.ts lines 323-338: fold the classification over the porcelain
lines. -/
def countStage (statusOutput : String) (status : BranchStatus) : BranchStatus :=
  (splitLines statusOutput).foldl (fun st line => classifyStatusLine line st) status

/-- git.ts line 340: `dirty = staged > 0 || unstaged > 0 || untracked > 0`. -/
def dirtyStage (status : BranchStatus) : BranchStatus :=
  { status with
    dirty := decide (status.staged > 0 ∨ status.unstaged > 0 ∨ status.untracked > 0) }

/-- git.ts lines 343-372: the log query inside its own `try` (a failed
query leaves the status untouched). -/
def logStage (env : SysEnv) (status : BranchStatus) : BranchStatus :=
  match env.exec gitLogCmd with
  | .error _ => status
  | .ok logOutput => addCommits (jsTrim logOutput) status

/-- git.ts lines 277-378.  The function is total: the outer `try` returns
the partially populated `status` when the porcelain query raises, the
per-ref and log sub-queries swallow their own errors, and nothing after the
log block can raise. -/
def getBranchStatus (env : SysEnv) : BranchStatus :=
  let status := emptyBranchStatus
  let status := aheadBehindLoop env refsToTry status
  match env.exec "git status --porcelain" with
  | .error _ => status
  | .ok statusOutput => logStage env (dirtyStage (countStage statusOutput status))

/-- `true` exactly when an external call raised. -/
def isErr {α : Type} : Except GitError α → Bool
  | .error _ => true
  | .ok _ => false

/-! ## Concrete oracle environments used to instantiate the theorems -/

/-- An environment in which every external call fails. -/
def envAllFail : SysEnv :=
  { cwd := "/"
    exec := fun _ => .error "fail"
    fsExists := fun _ => false
    fsRead := fun _ => .error "fail"
    fsUnlink := fun _ => .error "fail" }

/-- A checkout whose configured upstream resolves and reports 3 commits
behind and 5 ahead; everything else fails. -/
def envUpstream : SysEnv :=
  { cwd := "/repo"
    exec := fun c => if c = revListCmd "@\x7bupstream\x7d" then .ok "3\t5" else .error "fail"
    fsExists := fun _ => false
    fsRead := fun _ => .error "fail"
    fsUnlink := fun _ => .error "fail" }

/-- A repository at `/repo` whose `git worktree add` command fails. -/
def envCreateFail : SysEnv :=
  { cwd := "/cwd"
    exec := fun c =>
      if c = "git rev-parse --git-common-dir" then .ok "/repo/.git" else .error "boom"
    fsExists := fun _ => false
    fsRead := fun _ => .error "boom"
    fsUnlink := fun _ => .error "boom" }

/-- A repository at `/repo` in which the ref probes fail but every
`git worktree add` invocation succeeds. -/
def envEmptySanitize : SysEnv :=
  { cwd := "/cwd"
    exec := fun c =>
      if c = "git rev-parse --git-common-dir" then .ok "/repo/.git"
      else if c = "git worktree add -b \"\" \"/repo.\"" then .ok ""
      else .error "no such ref"
    fsExists := fun _ => false
    fsRead := fun _ => .error "fail"
    fsUnlink := fun _ => .error "fail" }

/-- A repository at `/repo` with an existing local branch `feature/x` whose
worktree creation succeeds. -/
def envTargetPath : SysEnv :=
  { cwd := "/cwd"
    exec := fun c =>
      if c = "git rev-parse --git-common-dir" then .ok "/repo/.git"
      else if c = "git show-ref --verify --quiet refs/heads/feature/x" then .ok ""
      else if c = "git worktree add \"/repo.feature-x\" \"feature/x\"" then .ok ""
      else .error "no"
    fsExists := fun _ => false
    fsRead := fun _ => .error "fail"
    fsUnlink := fun _ => .error "fail" }

/-- A repository at `/repo` with one worktree `/repo.b` on branch `b`;
removing it fails, its `.git` link file exists and is readable but contains
no `gitdir:` line. -/
def envMalformedGitFile : SysEnv :=
  { cwd := "/cwd"
    exec := fun c =>
      if c = "git rev-parse --git-common-dir" then .ok "/repo/.git"
      else if c = "git worktree list --porcelain" then
        .ok "worktree /repo.b\nbranch refs/heads/b\n"
      else if c = "git worktree remove \"/repo.b\" --force" then .error "removal failed"
      else .ok ""
    fsExists := fun p => p == "/repo.b/.git"
    fsRead := fun _ => .ok "no gitdir line here"
    fsUnlink := fun _ => .ok () }

/-- A repository at `/repo` with one worktree `/repo.b` on branch `b`; all
commands succeed. -/
def envNoSuchBranch : SysEnv :=
  { cwd := "/cwd"
    exec := fun c =>
      if c = "git rev-parse --git-common-dir" then .ok "/repo/.git"
      else if c = "git worktree list --porcelain" then
        .ok "worktree /repo.b\nbranch refs/heads/b\n"
      else .ok ""
    fsExists := fun _ => false
    fsRead := fun _ => .error "fail"
    fsUnlink := fun _ => .ok () }

/-- The repository root a call computes after clearing the caches (both
`createWorktree` and `removeWorktree` clear at entry, so the value is
independent of the incoming cache state). -/
def repoRootOf (env : SysEnv) : String :=
  (repoRoot env { cachedRepoRoot := none, cachedWorktrees := none }).1

/-! # Theorems -/

/-! ## Helper lemmas about `dropWhile` and `stripEdges` -/

theorem memOfDropWhile {p : Char → Bool} {l : List Char} {c : Char}
    (h : c ∈ l.dropWhile p) : c ∈ l := by
  induction l with
  | nil => simp at h
  | cons a t ih =>
    by_cases hp : p a
    · rw [List.dropWhile_cons, if_pos hp] at h
      exact List.mem_cons_of_mem a (ih h)
    · rwa [List.dropWhile_cons, if_neg hp] at h

theorem dropWhileHeadFalse {p : Char → Bool} {l : List Char} {c : Char}
    (h : (l.dropWhile p).head? = some c) : p c = false := by
  induction l with
  | nil => simp at h
  | cons a t ih =>
    by_cases hp : p a
    · rw [List.dropWhile_cons, if_pos hp] at h
      exact ih h
    · rw [List.dropWhile_cons, if_neg hp] at h
      simp only [List.head?_cons, Option.some.injEq] at h
      subst h
      simpa using hp

theorem dropWhileEqSelf {p : Char → Bool} {l : List Char}
    (h : ∀ c, l.head? = some c → p c = false) : l.dropWhile p = l := by
  cases l with
  | nil => rfl
  | cons a t =>
    have ha := h a rfl
    rw [List.dropWhile_cons, if_neg (by simp [ha])]

theorem dropWhileGetLast {p : Char → Bool} {l : List Char}
    (h : l.dropWhile p ≠ []) : (l.dropWhile p).getLast? = l.getLast? := by
  induction l with
  | nil => simp at h
  | cons a t ih =>
    by_cases hp : p a
    · rw [List.dropWhile_cons, if_pos hp] at h ⊢
      rw [ih h]
      cases t with
      | nil => simp [List.dropWhile] at h
      | cons b t' => exact List.getLast?_cons_cons.symm
    · rw [List.dropWhile_cons, if_neg hp]

theorem stripEdgesMem {l : List Char} {c : Char} (h : c ∈ stripEdges l) : c ∈ l := by
  unfold stripEdges at h
  rw [List.mem_reverse] at h
  have h1 := memOfDropWhile h
  rw [List.mem_reverse] at h1
  exact memOfDropWhile h1

theorem stripEdgesHead {l : List Char} {c : Char}
    (h : (stripEdges l).head? = some c) : isEdgeChar c = false := by
  unfold stripEdges at h
  rw [List.head?_reverse] at h
  have hne : ((l.dropWhile isEdgeChar).reverse).dropWhile isEdgeChar ≠ [] := by
    intro he
    rw [he] at h
    simp at h
  rw [dropWhileGetLast hne, List.getLast?_reverse] at h
  exact dropWhileHeadFalse h

theorem stripEdgesLast {l : List Char} {c : Char}
    (h : (stripEdges l).getLast? = some c) : isEdgeChar c = false := by
  unfold stripEdges at h
  rw [List.getLast?_reverse] at h
  exact dropWhileHeadFalse h

theorem stripEdgesFixed {l : List Char}
    (hh : ∀ c, l.head? = some c → isEdgeChar c = false)
    (hl : ∀ c, l.getLast? = some c → isEdgeChar c = false) :
    stripEdges l = l := by
  unfold stripEdges
  rw [dropWhileEqSelf hh,
    dropWhileEqSelf (fun c hc => hl c (by rwa [List.head?_reverse] at hc)),
    List.reverse_reverse]

/-! ## Helper lemmas about the sanitized character set -/

theorem allowedToLower {c : Char} (h : isAllowedChar c = true) : jsToLowerChar c = c := by
  simp only [isAllowedChar, decide_eq_true_eq] at h
  unfold jsToLowerChar
  rw [if_neg]
  omega

theorem allowedNotWs {c : Char} (h : isAllowedChar c = true) : jsWhitespace c = false := by
  simp only [isAllowedChar, decide_eq_true_eq] at h
  simp only [jsWhitespace, decide_eq_false_iff_not]
  omega

theorem allowedMapFixed {l : List Char} (h : ∀ c ∈ l, isAllowedChar c = true) :
    l.map jsToLowerChar = l := by
  induction l with
  | nil => rfl
  | cons a t ih =>
    simp only [List.map_cons]
    rw [allowedToLower (h a (List.mem_cons_self a t)),
      ih fun c hc => h c (List.mem_cons_of_mem a hc)]

theorem noWsCollapseFixed {l : List Char} (h : ∀ c ∈ l, jsWhitespace c = false) :
    ∀ b, collapseWsAux b l = l := by
  induction l with
  | nil => intro b; rfl
  | cons a t ih =>
    intro b
    show (if jsWhitespace a then _ else a :: collapseWsAux false t) = a :: t
    rw [if_neg (by simp [h a (List.mem_cons_self a t)]),
      ih (fun c hc => h c (List.mem_cons_of_mem a hc)) false]

theorem sanitizeCharsAllowed {l : List Char} {c : Char} (h : c ∈ sanitizeChars l) :
    isAllowedChar c = true := by
  unfold sanitizeChars at h
  exact (List.mem_filter.mp (stripEdgesMem h)).2

theorem sanitizeCharsHead {l : List Char} {c : Char}
    (h : (sanitizeChars l).head? = some c) : isEdgeChar c = false := by
  unfold sanitizeChars at h
  exact stripEdgesHead h

theorem sanitizeCharsLast {l : List Char} {c : Char}
    (h : (sanitizeChars l).getLast? = some c) : isEdgeChar c = false := by
  unfold sanitizeChars at h
  exact stripEdgesLast h

theorem sanitizeCharsIdem (l : List Char) :
    sanitizeChars (sanitizeChars l) = sanitizeChars l := by
  have hall : ∀ c ∈ sanitizeChars l, isAllowedChar c = true :=
    fun c hc => sanitizeCharsAllowed hc
  show stripEdges (((sanitizeChars l).map jsToLowerChar |> collapseWsAux false).filter isAllowedChar)
      = sanitizeChars l
  rw [allowedMapFixed hall,
    noWsCollapseFixed (fun c hc => allowedNotWs (hall c hc)) false,
    List.filter_eq_self.mpr hall]
  exact stripEdgesFixed (fun c hc => sanitizeCharsHead hc) fun c hc => sanitizeCharsLast hc

theorem edgeFalseNe {c : Char} (h : isEdgeChar c = false) : c ≠ '-' ∧ c ≠ '.' := by
  constructor <;> · intro he; subst he; simp [isEdgeChar] at h

/-! ## Claims C4 and C10 -/

/-- Claim C4: `sanitizeBranch` is the pure total four-stage pipeline
(lower-case; whitespace runs to a single dash; strip characters outside
`[a-z0-9-_/.]`; strip leading and trailing dashes/dots).  The definition
`sanitizeBranch` above is the literal embedding of that pipeline; this
theorem checks the claim's two concrete examples and, for every input, the
observable guarantees of stages 3 and 4: the result contains only allowed
characters and neither starts nor ends with a dash or dot. -/
theorem sanitizeBranch_pipeline (s : String) :
    sanitizeBranch "Feature Add!! Login" = "feature-add-login" ∧
    sanitizeBranch " .tmp." = "tmp" ∧
    (∀ c, c ∈ (sanitizeBranch s).data → isAllowedChar c = true) ∧
    (∀ c, (sanitizeBranch s).data.head? = some c → c ≠ '-' ∧ c ≠ '.') ∧
    (∀ c, (sanitizeBranch s).data.getLast? = some c → c ≠ '-' ∧ c ≠ '.') := by
  refine ⟨by rfl, by rfl, ?_, ?_, ?_⟩
  · intro c hc
    exact sanitizeCharsAllowed hc
  · intro c hc
    exact edgeFalseNe (sanitizeCharsHead hc)
  · intro c hc
    exact edgeFalseNe (sanitizeCharsLast hc)

/-- Witness for C4 at a concrete input: instantiates the membership and
`head?` hypotheses at `s = "Feature"`, `c = 'f'`. -/
theorem sanitizeBranch_pipeline_witness :
    isAllowedChar 'f' = true ∧ 'f' ≠ '-' ∧ 'f' ≠ '.' :=
  ⟨(sanitizeBranch_pipeline "Feature").2.2.1 'f' (by decide),
    (sanitizeBranch_pipeline "Feature").2.2.2.1 'f' (by rfl)⟩

/-- Claim C10: `sanitizeBranch` is idempotent, so an already-sanitized
branch name passes through the sanitization step unchanged. -/
theorem sanitizeBranch_idempotent (s : String) :
    sanitizeBranch (sanitizeBranch s) = sanitizeBranch s := by
  show String.mk (sanitizeChars (sanitizeChars s.data)) = sanitizeBranch s
  rw [sanitizeCharsIdem]
  rfl

/-! ## Helper lemmas: field preservation across the status stages -/

theorem classifyPreserves (line : String) (st : BranchStatus) :
    (classifyStatusLine line st).ahead = st.ahead ∧
    (classifyStatusLine line st).behind = st.behind ∧
    (classifyStatusLine line st).dirty = st.dirty ∧
    (classifyStatusLine line st).recentCommits = st.recentCommits ∧
    (classifyStatusLine line st).lastCommit = st.lastCommit := by
  unfold classifyStatusLine
  by_cases h0 : line = ""
  · simp [h0]
  · by_cases h1 : strStartsWith line "??"
    · simp [h0, h1]
    · by_cases h2 : line.data.get? 0 ≠ some ' ' ∧ line.data.get? 0 ≠ some '?' <;>
        by_cases h3 : line.data.get? 1 ≠ some ' ' ∧ line.data.get? 1 ≠ some '?' <;>
        simp only [List.get?_eq_getElem?, ne_eq] at h2 h3 <;>
        simp [h0, h1, h2, h3]

theorem countStagePreserves (out : String) (st : BranchStatus) :
    (countStage out st).ahead = st.ahead ∧ (countStage out st).behind = st.behind ∧
    (countStage out st).dirty = st.dirty ∧
    (countStage out st).recentCommits = st.recentCommits ∧
    (countStage out st).lastCommit = st.lastCommit := by
  unfold countStage
  generalize splitLines out = lines
  induction lines generalizing st with
  | nil => exact ⟨rfl, rfl, rfl, rfl, rfl⟩
  | cons l rest ih =>
    simp only [List.foldl_cons]
    have h1 := classifyPreserves l st
    have h2 := ih (classifyStatusLine l st)
    exact ⟨h2.1.trans h1.1, h2.2.1.trans h1.2.1, h2.2.2.1.trans h1.2.2.1,
      h2.2.2.2.1.trans h1.2.2.2.1, h2.2.2.2.2.trans h1.2.2.2.2⟩

theorem addCommitsPreserves (lo : String) (st : BranchStatus) :
    (addCommits lo st).ahead = st.ahead ∧ (addCommits lo st).behind = st.behind ∧
    (addCommits lo st).staged = st.staged ∧ (addCommits lo st).unstaged = st.unstaged ∧
    (addCommits lo st).untracked = st.untracked ∧ (addCommits lo st).dirty = st.dirty := by
  unfold addCommits
  cases addCommitsLoop (splitLines lo) [] with
  | error cs => exact ⟨rfl, rfl, rfl, rfl, rfl, rfl⟩
  | ok cs => by_cases h : cs.length > 0 <;> simp [h]

theorem logStagePreserves (env : SysEnv) (st : BranchStatus) :
    (logStage env st).ahead = st.ahead ∧ (logStage env st).behind = st.behind ∧
    (logStage env st).staged = st.staged ∧ (logStage env st).unstaged = st.unstaged ∧
    (logStage env st).untracked = st.untracked ∧ (logStage env st).dirty = st.dirty := by
  unfold logStage
  cases env.exec gitLogCmd with
  | error e => exact ⟨rfl, rfl, rfl, rfl, rfl, rfl⟩
  | ok lo => exact addCommitsPreserves (jsTrim lo) st

theorem aheadBehindLoopPreserves (env : SysEnv) (refs : List String) (st : BranchStatus) :
    (aheadBehindLoop env refs st).staged = st.staged ∧
    (aheadBehindLoop env refs st).unstaged = st.unstaged ∧
    (aheadBehindLoop env refs st).untracked = st.untracked ∧
    (aheadBehindLoop env refs st).dirty = st.dirty ∧
    (aheadBehindLoop env refs st).recentCommits = st.recentCommits ∧
    (aheadBehindLoop env refs st).lastCommit = st.lastCommit := by
  induction refs generalizing st with
  | nil => exact ⟨rfl, rfl, rfl, rfl, rfl, rfl⟩
  | cons r rest ih =>
    cases h : env.exec (revListCmd r) with
    | error e => simpa [aheadBehindLoop, h] using ih st
    | ok out => simp [aheadBehindLoop, h]

theorem aheadBehindLoopAllErr (env : SysEnv) (refs : List String) (st : BranchStatus)
    (h : ∀ r ∈ refs, isErr (env.exec (revListCmd r)) = true) :
    aheadBehindLoop env refs st = st := by
  induction refs with
  | nil => rfl
  | cons r rest ih =>
    have hr := h r (List.mem_cons_self r rest)
    cases he : env.exec (revListCmd r) with
    | ok out => rw [he] at hr; simp [isErr] at hr
    | error e =>
      simp only [aheadBehindLoop, he]
      exact ih fun x hx => h x (List.mem_cons_of_mem r hx)

theorem aheadBehindLoopFirstOk (env : SysEnv) (pre : List String) (ref : String)
    (post : List String) (st : BranchStatus) (out : String)
    (hpre : ∀ r ∈ pre, isErr (env.exec (revListCmd r)) = true)
    (href : env.exec (revListCmd ref) = .ok out) :
    aheadBehindLoop env (pre ++ ref :: post) st =
      { st with behind := jsNumAt (jsSplitWs (jsTrim out)) 0,
                ahead := jsNumAt (jsSplitWs (jsTrim out)) 1 } := by
  induction pre with
  | nil => simp only [List.nil_append, aheadBehindLoop, href]
  | cons r rest ih =>
    have hr := hpre r (List.mem_cons_self r rest)
    cases he : env.exec (revListCmd r) with
    | ok o => rw [he] at hr; simp [isErr] at hr
    | error e =>
      simp only [List.cons_append, aheadBehindLoop, he]
      exact ih fun x hx => hpre x (List.mem_cons_of_mem r hx)

theorem getBranchStatusAheadBehindEq (env : SysEnv) :
    (getBranchStatus env).ahead = (aheadBehindLoop env refsToTry emptyBranchStatus).ahead ∧
    (getBranchStatus env).behind = (aheadBehindLoop env refsToTry emptyBranchStatus).behind := by
  cases hp : env.exec "git status --porcelain" with
  | error e =>
    unfold getBranchStatus
    rw [hp]
    exact ⟨rfl, rfl⟩
  | ok out =>
    unfold getBranchStatus
    rw [hp]
    have h1 := logStagePreserves env
      (dirtyStage (countStage out (aheadBehindLoop env refsToTry emptyBranchStatus)))
    have h2 := countStagePreserves out (aheadBehindLoop env refsToTry emptyBranchStatus)
    exact ⟨h1.1.trans h2.1, h1.2.1.trans h2.2.1⟩

/-! ## Claim C1 -/

/-- Claim C1: `getBranchStatus` always returns a `BranchStatus` and never
raises (the embedding is a total function; the JS `try`/`catch` structure
it embeds absorbs every sub-query failure), and fields whose sub-query
fails keep their zero/empty defaults: failing rev-list candidates leave
`ahead = behind = 0`; a failing porcelain query leaves the working-tree and
commit fields at their defaults; a failing log query leaves
`recentCommits = []` and `lastCommit = none`; and when the path is not a
valid checkout (every sub-query fails) the result is exactly the
populated-but-zeroed record. -/
theorem getBranchStatus_never_raises_defaults (env : SysEnv) :
    ((∀ r ∈ refsToTry, isErr (env.exec (revListCmd r)) = true) →
      (getBranchStatus env).ahead = 0 ∧ (getBranchStatus env).behind = 0) ∧
    (isErr (env.exec "git status --porcelain") = true →
      (getBranchStatus env).staged = 0 ∧ (getBranchStatus env).unstaged = 0 ∧
      (getBranchStatus env).untracked = 0 ∧ (getBranchStatus env).dirty = false ∧
      (getBranchStatus env).recentCommits = [] ∧ (getBranchStatus env).lastCommit = none) ∧
    (isErr (env.exec gitLogCmd) = true →
      (getBranchStatus env).recentCommits = [] ∧ (getBranchStatus env).lastCommit = none) ∧
    ((∀ r ∈ refsToTry, isErr (env.exec (revListCmd r)) = true) →
      isErr (env.exec "git status --porcelain") = true →
      getBranchStatus env = emptyBranchStatus) := by
  refine ⟨?_, ?_, ?_, ?_⟩
  · intro hAll
    obtain ⟨ha, hb⟩ := getBranchStatusAheadBehindEq env
    rw [aheadBehindLoopAllErr env refsToTry emptyBranchStatus hAll] at ha hb
    exact ⟨ha, hb⟩
  · intro hp
    cases he : env.exec "git status --porcelain" with
    | ok out => rw [he] at hp; simp [isErr] at hp
    | error e =>
      unfold getBranchStatus
      rw [he]
      obtain ⟨p1, p2, p3, p4, p5, p6⟩ := aheadBehindLoopPreserves env refsToTry emptyBranchStatus
      exact ⟨p1, p2, p3, p4, p5, p6⟩
  · intro hl
    cases he : env.exec "git status --porcelain" with
    | error e =>
      unfold getBranchStatus
      rw [he]
      obtain ⟨-, -, -, -, p5, p6⟩ := aheadBehindLoopPreserves env refsToTry emptyBranchStatus
      exact ⟨p5, p6⟩
    | ok out =>
      cases hlog : env.exec gitLogCmd with
      | ok lo => rw [hlog] at hl; simp [isErr] at hl
      | error e =>
        unfold getBranchStatus logStage
        rw [he, hlog]
        obtain ⟨-, -, -, c4, c5⟩ :=
          countStagePreserves out (aheadBehindLoop env refsToTry emptyBranchStatus)
        obtain ⟨-, -, -, -, l5, l6⟩ := aheadBehindLoopPreserves env refsToTry emptyBranchStatus
        exact ⟨c4.trans l5, c5.trans l6⟩
  · intro hAll hp
    cases he : env.exec "git status --porcelain" with
    | ok out => rw [he] at hp; simp [isErr] at hp
    | error e =>
      unfold getBranchStatus
      rw [he]
      exact aheadBehindLoopAllErr env refsToTry emptyBranchStatus hAll

/-- Witness for C1: in an environment where every external call fails,
`getBranchStatus` returns exactly the all-default record. -/
theorem getBranchStatus_defaults_witness : getBranchStatus envAllFail = emptyBranchStatus :=
  (getBranchStatus_never_raises_defaults envAllFail).2.2.2 (fun _ _ => rfl) rfl

/-! ## Claim C5 -/

/-- Claim C5: the ahead/behind candidates are tried in the strict source
order configured upstream, remote `main`, remote `master`, local `main`,
local `master`; the first candidate whose rev-list query succeeds
determines the counts — the left count of the trimmed output is `behind`
and the right count is `ahead` (via the `Number()`-with-`|| 0` parse
`jsNumAt`); if no candidate resolves both counts stay 0, and on a clean
checkout (empty porcelain output) `dirty` is additionally false. -/
theorem getBranchStatus_ahead_behind_order (env : SysEnv) (pre post : List String)
    (ref out : String) :
    refsToTry = ["@\x7bupstream\x7d", "origin/main", "origin/master", "main", "master"] ∧
    (refsToTry = pre ++ ref :: post →
      (∀ r ∈ pre, isErr (env.exec (revListCmd r)) = true) →
      env.exec (revListCmd ref) = .ok out →
      (getBranchStatus env).behind = jsNumAt (jsSplitWs (jsTrim out)) 0 ∧
      (getBranchStatus env).ahead = jsNumAt (jsSplitWs (jsTrim out)) 1) ∧
    ((∀ r ∈ refsToTry, isErr (env.exec (revListCmd r)) = true) →
      (getBranchStatus env).ahead = 0 ∧ (getBranchStatus env).behind = 0 ∧
      (env.exec "git status --porcelain" = .ok "" → (getBranchStatus env).dirty = false)) := by
  refine ⟨rfl, ?_, ?_⟩
  · intro hsplit hpre href
    obtain ⟨ha, hb⟩ := getBranchStatusAheadBehindEq env
    rw [hsplit, aheadBehindLoopFirstOk env pre ref post emptyBranchStatus out hpre href]
      at ha hb
    exact ⟨hb, ha⟩
  · intro hAll
    obtain ⟨ha, hb⟩ := getBranchStatusAheadBehindEq env
    rw [aheadBehindLoopAllErr env refsToTry emptyBranchStatus hAll] at ha hb
    refine ⟨ha, hb, ?_⟩
    intro hp
    unfold getBranchStatus
    rw [hp]
    show (logStage env (dirtyStage (countStage ""
      (aheadBehindLoop env refsToTry emptyBranchStatus)))).dirty = false
    rw [aheadBehindLoopAllErr env refsToTry emptyBranchStatus hAll]
    have hde : dirtyStage (countStage "" emptyBranchStatus) = emptyBranchStatus := by rfl
    rw [hde]
    exact (logStagePreserves env emptyBranchStatus).2.2.2.2.2

/-- Witness for C5: the configured upstream (the first candidate) succeeds
with trimmed output `3<tab>5`, so `behind = 3` (left) and `ahead = 5`
(right). -/
theorem getBranchStatus_ahead_behind_order_witness :
    (getBranchStatus envUpstream).behind = 3 ∧ (getBranchStatus envUpstream).ahead = 5 := by
  have h := (getBranchStatus_ahead_behind_order envUpstream []
      ["origin/main", "origin/master", "main", "master"] "@\x7bupstream\x7d" "3\t5").2.1
    rfl (fun r hr => absurd hr (List.not_mem_nil r)) rfl
  exact ⟨h.1.trans (by rfl), h.2.trans (by rfl)⟩

/-! ## Claim C6 -/

/-- Counterexample to claim C6 as stated.  The claim says a line increments
`unstaged` iff its second (worktree) column "is present and neither blank
nor `?`".  For the one-character line `"M"` the second column is absent
(`line[1]` is `undefined`), so the claim demands no increment; but in JS
`undefined !== " " && undefined !== "?"` is true, so the code increments
`unstaged` anyway. -/
theorem statusLine_missing_column_cex :
    "M".data.get? 1 = none ∧
    (classifyStatusLine "M" emptyBranchStatus).unstaged = 1 := ⟨rfl, rfl⟩

/-- Claim C6 (amended): a line beginning with `??` increments `untracked`
only; any other nonempty line increments `staged` iff its first (index)
column is neither blank nor `?`, and increments `unstaged` iff its second
(worktree) column is absent or neither blank nor `?` (the absent case is
the amendment forced by the counterexample); a single line can increment
both; the returned `dirty` equals `staged > 0 ∨ unstaged > 0 ∨
untracked > 0`; and the claim's four concrete examples hold. -/
theorem statusLine_classification (line : String) (st : BranchStatus) (env : SysEnv) :
    (strStartsWith line "??" = true →
      classifyStatusLine line st = { st with untracked := st.untracked + 1 }) ∧
    (line ≠ "" → strStartsWith line "??" = false →
      (classifyStatusLine line st).staged =
        st.staged +
          (if line.data.get? 0 ≠ some ' ' ∧ line.data.get? 0 ≠ some '?' then 1 else 0) ∧
      (classifyStatusLine line st).unstaged =
        st.unstaged +
          (if line.data.get? 1 ≠ some ' ' ∧ line.data.get? 1 ≠ some '?' then 1 else 0) ∧
      (classifyStatusLine line st).untracked = st.untracked) ∧
    ((getBranchStatus env).dirty = true ↔
      (getBranchStatus env).staged > 0 ∨ (getBranchStatus env).unstaged > 0 ∨
        (getBranchStatus env).untracked > 0) ∧
    classifyStatusLine "M " emptyBranchStatus = { emptyBranchStatus with staged := 1 } ∧
    classifyStatusLine " M" emptyBranchStatus = { emptyBranchStatus with unstaged := 1 } ∧
    classifyStatusLine "??" emptyBranchStatus = { emptyBranchStatus with untracked := 1 } ∧
    classifyStatusLine "MM" emptyBranchStatus =
      { emptyBranchStatus with staged := 1, unstaged := 1 } := by
  refine ⟨?_, ?_, ?_, rfl, rfl, rfl, rfl⟩
  · intro h
    have hl : line ≠ "" := by
      intro he
      rw [he] at h
      simp [strStartsWith, listPrefixOf] at h
    unfold classifyStatusLine
    simp [hl, h]
  · intro hl h2
    unfold classifyStatusLine
    by_cases hi : line.data.get? 0 ≠ some ' ' ∧ line.data.get? 0 ≠ some '?' <;>
      by_cases hw : line.data.get? 1 ≠ some ' ' ∧ line.data.get? 1 ≠ some '?' <;>
      simp only [List.get?_eq_getElem?, ne_eq] at hi hw <;>
      simp [hl, h2, hi, hw]
  · cases hp : env.exec "git status --porcelain" with
    | error e =>
      unfold getBranchStatus
      rw [hp]
      obtain ⟨p1, p2, p3, p4, -, -⟩ := aheadBehindLoopPreserves env refsToTry emptyBranchStatus
      rw [p1, p2, p3, p4]
      simp [emptyBranchStatus]
    | ok out =>
      unfold getBranchStatus
      rw [hp]
      obtain ⟨-, -, l3, l4, l5, l6⟩ := logStagePreserves env
        (dirtyStage (countStage out (aheadBehindLoop env refsToTry emptyBranchStatus)))
      rw [l3, l4, l5, l6]
      show (decide _ = true) ↔ _
      rw [decide_eq_true_iff]
      exact Iff.rfl


/-- Witness for C6: instantiates the non-`??` conjunct at the concrete line
`"R "` (index column `R`, worktree column blank). -/
theorem statusLine_classification_witness :
    (classifyStatusLine "R " emptyBranchStatus).staged = 1 ∧
    (classifyStatusLine "R " emptyBranchStatus).unstaged = 0 := by
  have h := (statusLine_classification "R " emptyBranchStatus envAllFail).2.1
    (by decide) (by rfl)
  refine ⟨?_, ?_⟩
  · rw [h.1]; rfl
  · rw [h.2.1]; rfl

/-! ## Helper lemmas: the lifecycle operations and the caches -/

theorem repoRootPreservesWt (env : SysEnv) (st : GitState) :
    (repoRoot env st).2.cachedWorktrees = st.cachedWorktrees := by
  unfold repoRoot
  cases hc : st.cachedRepoRoot with
  | some r => rfl
  | none =>
    cases he : env.exec "git rev-parse --git-common-dir" with
    | ok out => rfl
    | error e => rfl

theorem repoNamePreservesWt (env : SysEnv) (st : GitState) :
    (repoName env st).2.cachedWorktrees = st.cachedWorktrees := by
  have h := repoRootPreservesWt env st
  unfold repoName
  rcases hrr : repoRoot env st with ⟨r, st1⟩
  rw [hrr] at h
  exact h

theorem repoNameVal (env : SysEnv) (st : GitState) :
    (repoName env st).1 = pathBasename (repoRoot env st).1 := by
  unfold repoName
  rcases repoRoot env st with ⟨r, st1⟩
  rfl

/-- A second `repoRoot` call right after a first one returns the same root
(either the first call cached it, or both calls fail identically and return
`cwd`). -/
theorem repoRootStable (env : SysEnv) (st : GitState) :
    (repoRoot env (repoRoot env st).2).1 = (repoRoot env st).1 := by
  cases hc : st.cachedRepoRoot with
  | some r =>
    have h1 : repoRoot env st = (r, st) := by unfold repoRoot; rw [hc]
    rw [h1]
    unfold repoRoot
    rw [hc]
  | none =>
    cases he : env.exec "git rev-parse --git-common-dir" with
    | ok out =>
      have h1 : repoRoot env st =
          (pathDirname (pathResolve env.cwd (jsTrim out)),
            { st with cachedRepoRoot := some (pathDirname (pathResolve env.cwd (jsTrim out))) }) := by
        unfold repoRoot
        rw [hc, he]
      rw [h1]
      rfl
    | error e =>
      have h1 : repoRoot env st = (env.cwd, st) := by unfold repoRoot; rw [hc, he]
      rw [h1]
      unfold repoRoot
      rw [hc, he]

/-- Unfolding `createWorktree` once the two cache reads are named. -/
theorem createWorktreeUnfold (env : SysEnv) (b : String) (st : GitState) :
    createWorktree env b st =
      match env.exec (worktreeAddCmd (branchExistsProbe env (sanitizeBranch b))
          (worktreeDirFor (repoRoot env (clearCache st)).1
            (repoName env (repoRoot env (clearCache st)).2).1 (sanitizeBranch b))
          (sanitizeBranch b)) with
      | .error e => (.error e, (repoName env (repoRoot env (clearCache st)).2).2)
      | .ok _ =>
        (.ok (worktreeDirFor (repoRoot env (clearCache st)).1
            (repoName env (repoRoot env (clearCache st)).2).1 (sanitizeBranch b)),
          clearCache (repoName env (repoRoot env (clearCache st)).2).2) := by
  rcases hrr : repoRoot env (clearCache st) with ⟨root1, stA⟩
  rcases hrn : repoName env stA with ⟨name1, stB⟩
  simp only [createWorktree, hrr, hrn]

/-- The name computed inside `createWorktree` is the basename of the root
that a fresh (cleared-cache) `repoRoot` resolution yields. -/
theorem createNameVal (env : SysEnv) (st : GitState) :
    (repoName env (repoRoot env (clearCache st)).2).1 = pathBasename (repoRootOf env) := by
  rw [repoNameVal]
  show pathBasename (repoRoot env (repoRoot env (clearCache st)).2).1 = _
  rw [repoRootStable]
  rfl

/-! ## Claim C3 -/

/-- Counterexample to claim C3 as stated: the caches are not "left
untouched, exactly as they were before the call".  `createWorktree` clears
both caches at entry (line 116) and `repoRoot` then repopulates the root
cache, so a failing call returns with the worktree-listing cache emptied
and the root cache freshly computed, not with the pre-call values. -/
theorem createWorktree_failure_caches_cex :
    createWorktree envCreateFail "feat" ⟨some "/old", some [⟨"b", "/p", none⟩]⟩ =
      (.error "boom", ⟨some "/repo", none⟩) ∧
    (⟨some "/repo", none⟩ : GitState) ≠ ⟨some "/old", some [⟨"b", "/p", none⟩]⟩ :=
  ⟨rfl, by decide⟩

/-- Claim C3 (amended): when `createWorktree` fails, the underlying
command's error propagates unchanged to the caller; the caches are not left
untouched — both are cleared at entry, so the failing call returns with the
worktree-listing cache invalidated (`none`), while the root cache holds
whatever the in-call `repoRoot` resolution produced. -/
theorem createWorktree_failure_state (env : SysEnv) (st : GitState) (b : String)
    (e : GitError) (st' : GitState)
    (h : createWorktree env b st = (.error e, st')) :
    st'.cachedWorktrees = none ∧ ∃ cmd, env.exec cmd = .error e := by
  rw [createWorktreeUnfold] at h
  cases hadd : env.exec (worktreeAddCmd (branchExistsProbe env (sanitizeBranch b))
      (worktreeDirFor (repoRoot env (clearCache st)).1
        (repoName env (repoRoot env (clearCache st)).2).1 (sanitizeBranch b))
      (sanitizeBranch b)) with
  | ok o => rw [hadd] at h; simp at h
  | error e1 =>
    rw [hadd, Prod.mk.injEq] at h
    obtain ⟨h1, h2⟩ := h
    injection h1 with h1e
    subst h1e
    subst h2
    refine ⟨?_, ⟨_, hadd⟩⟩
    rw [repoNamePreservesWt, repoRootPreservesWt]
    rfl

/-- Witness for C3 (amended), instantiated at `envCreateFail` with a
populated initial cache: the failing call ends with the listing cache
invalidated and its error is the add command's error unchanged. -/
theorem createWorktree_failure_state_witness :
    (⟨some "/repo", none⟩ : GitState).cachedWorktrees = none ∧
    ∃ cmd, envCreateFail.exec cmd = .error "boom" :=
  createWorktree_failure_state envCreateFail ⟨some "/old", some [⟨"b", "/p", none⟩]⟩
    "feat" "boom" ⟨some "/repo", none⟩ rfl

/-! ## Claim C7 -/

/-- Counterexample to claim C7 as stated: `createWorktree` has no check for
an empty sanitized name.  With `"!!!"` (which sanitizes to `""`) and an
environment whose add command succeeds, the call proceeds through the ref
probes and the creation command and returns a path — it neither fails nor
short-circuits with a distinct `AmbiguousBranchState` error. -/
theorem createWorktree_empty_sanitized_cex :
    sanitizeBranch "!!!" = "" ∧
    createWorktree envEmptySanitize "!!!" ⟨none, none⟩ = (.ok "/repo.", ⟨none, none⟩) :=
  ⟨rfl, rfl⟩

/-- Claim C7 (amended): when sanitization collapses to the empty string,
`createWorktree` performs no dedicated check; it proceeds to probe the refs
and run the worktree-creation command with the empty name, and its outcome
is exactly that command's outcome (an error propagates as the generic
creation failure; in practice the underlying tool rejects the empty
reference name, but nothing in this function does). -/
theorem createWorktree_empty_sanitized (env : SysEnv) (st : GitState) (b : String)
    (h : sanitizeBranch b = "") :
    (createWorktree env b st).1 =
      match env.exec (worktreeAddCmd (branchExistsProbe env "")
          (worktreeDirFor (repoRootOf env) (pathBasename (repoRootOf env)) "") "") with
      | .error e => .error e
      | .ok _ => .ok (worktreeDirFor (repoRootOf env) (pathBasename (repoRootOf env)) "") := by
  have hroot : (repoRoot env (clearCache st)).1 = repoRootOf env := rfl
  have hname := createNameVal env st
  rw [createWorktreeUnfold, h, hroot, hname]
  cases hadd : env.exec (worktreeAddCmd (branchExistsProbe env "")
      (worktreeDirFor (repoRootOf env) (pathBasename (repoRootOf env)) "") "") with
  | ok o => rfl
  | error e => rfl

/-- Witness for C7 (amended) at branch `"!!!"` in an environment where the
add command succeeds: the call returns the computed directory. -/
theorem createWorktree_empty_sanitized_witness :
    (createWorktree envEmptySanitize "!!!" (⟨none, none⟩ : GitState)).1 = .ok "/repo." := by
  rw [createWorktree_empty_sanitized envEmptySanitize ⟨none, none⟩ "!!!" rfl]
  rfl

/-! ## Claim C9 -/

/-- Claim C9: on success `createWorktree` returns the target directory
path, the sibling of the repository root named `{repoName}.{folderSuffix}`
with `folderSuffix` the sanitized branch name with every `/` replaced by
`-`; the result is deterministic in the repository (the oracle) and the
branch name — the incoming cache state is irrelevant, since the caches are
cleared at entry. -/
theorem createWorktree_target_path (env : SysEnv) (st st' : GitState) (b p : String)
    (h : createWorktree env b st = (.ok p, st')) :
    p = pathJoin (pathDirname (repoRootOf env))
      (pathBasename (repoRootOf env) ++ "." ++ slashToDash (sanitizeBranch b)) ∧
    ∀ st2 : GitState, (createWorktree env b st2).1 = (createWorktree env b st).1 := by
  refine ⟨?_, fun st2 => rfl⟩
  rw [createWorktreeUnfold] at h
  cases hadd : env.exec (worktreeAddCmd (branchExistsProbe env (sanitizeBranch b))
      (worktreeDirFor (repoRoot env (clearCache st)).1
        (repoName env (repoRoot env (clearCache st)).2).1 (sanitizeBranch b))
      (sanitizeBranch b)) with
  | error e => rw [hadd] at h; simp at h
  | ok o =>
    rw [hadd, Prod.mk.injEq] at h
    obtain ⟨h1, -⟩ := h
    injection h1 with h1p
    subst h1p
    have hroot : (repoRoot env (clearCache st)).1 = repoRootOf env := rfl
    rw [createNameVal, hroot]
    rfl

/-- Witness for C9, instantiated at a repository rooted at `/repo` with
branch `feature/x`: the returned path is `/repo.feature-x`. -/
theorem createWorktree_target_path_witness :
    "/repo.feature-x" = pathJoin (pathDirname (repoRootOf envTargetPath))
      (pathBasename (repoRootOf envTargetPath) ++ "." ++
        slashToDash (sanitizeBranch "feature/x")) :=
  (createWorktree_target_path envTargetPath ⟨none, none⟩ ⟨none, none⟩ "feature/x"
    "/repo.feature-x" rfl).1

/-! ## Helper lemmas: `removeWorktree` -/

theorem attemptPreservesWt (env : SysEnv) (p : String) (st : GitState) :
    (removeWorktreeAttempt env p st).2.cachedWorktrees = st.cachedWorktrees := by
  rcases hr1 : repoRoot env st with ⟨r1, st1⟩
  have h1 : st1.cachedWorktrees = st.cachedWorktrees := by
    have hp := repoRootPreservesWt env st
    rw [hr1] at hp
    exact hp
  simp only [removeWorktreeAttempt, hr1]
  repeat' split
  all_goals first
    | exact h1
    | exact (repoRootPreservesWt env st1).trans h1

theorem removeWorktreeNone (env : SysEnv) (branch : String) (db : Bool) (st : GitState)
    (h : (worktreePath env branch (clearCache st)).1 = none) :
    removeWorktree env branch db st = (.ok (), (worktreePath env branch (clearCache st)).2) := by
  rcases hwp : worktreePath env branch (clearCache st) with ⟨o, st1⟩
  rw [hwp] at h
  have ho : o = none := h
  subst ho
  simp only [removeWorktree, hwp]

theorem removeWorktreeSome (env : SysEnv) (branch : String) (db : Bool) (st : GitState)
    (p : String) (h : (worktreePath env branch (clearCache st)).1 = some p) :
    removeWorktree env branch db st =
      match removeWorktreeAttempt env p (worktreePath env branch (clearCache st)).2 with
      | (.error e, st2) => (.error e, st2)
      | (.ok _, _) => (.ok (), ⟨none, none⟩) := by
  rcases hwp : worktreePath env branch (clearCache st) with ⟨o, st1⟩
  rw [hwp] at h
  have ho : o = some p := h
  subst ho
  simp only [removeWorktree, hwp]
  rcases hA : removeWorktreeAttempt env p st1 with ⟨res, st2⟩
  cases res with
  | error e => rfl
  | ok u => rfl

/-! ## Claim C2 -/

/-- Claim C2 (code bug): the claim — matching the code's own comment "If we
can't read/parse the .git file, rethrow original error" — says a malformed
link file re-raises the original removal error.  But when the link file is
readable yet contains no `gitdir:` line, the regex match is `null` and the
`if (gitdirMatch)` block is simply skipped: no exception occurs, so the
`catch (readError)` never fires and the original error is silently
swallowed.  This theorem evaluates the code at such a failing input:
removal of branch `b` fails, `/repo.b/.git` exists and reads as a line
without `gitdir:`, and `removeWorktree` returns normally instead of
re-raising `"removal failed"`. -/
theorem removeWorktree_malformed_gitfile_swallows :
    envMalformedGitFile.exec "git worktree remove \"/repo.b\" --force" =
      .error "removal failed" ∧
    envMalformedGitFile.fsExists "/repo.b/.git" = true ∧
    envMalformedGitFile.fsRead "/repo.b/.git" = .ok "no gitdir line here" ∧
    parseGitdir "no gitdir line here" = none ∧
    removeWorktree envMalformedGitFile "b" false ⟨none, none⟩ = (.ok (), ⟨none, none⟩) :=
  ⟨rfl, rfl, rfl, rfl, rfl⟩

/-! ## Claim C8 -/

/-- Counterexample to claim C8 as stated: calling `removeWorktree` on a
branch with no attached worktree returns with the registry cache holding
the listing recomputed during the call (populated), not invalidated — the
entry `clearCache` ran, but `worktreePath` immediately repopulated the
cache, and the early `return` of git.ts line 167 skips the final
`clearCache` of line 234, so a subsequent listing will reuse this cached
value rather than recompute. -/
theorem removeWorktree_noop_cache_cex :
    removeWorktree envNoSuchBranch "nosuch" false ⟨none, none⟩ =
      (.ok (), ⟨some "/repo", some [⟨"b", "/repo.b", none⟩]⟩) ∧
    (some [(⟨"b", "/repo.b", none⟩ : Worktree)] : Option (List Worktree)) ≠ none :=
  ⟨rfl, by simp⟩

/-- Claim C8 (amended): `removeWorktree` clears both caches at entry on
every call; when the branch has no attached worktree it is a no-op that
returns without error, with the registry cache holding the listing
recomputed during the call; when a worktree was found, a normal return
leaves the registry cache invalidated (`none`, via the final
`clearCache`), while a re-raised removal error leaves the registry cache
exactly as the in-call listing left it (the final `clearCache` is
skipped). -/
theorem removeWorktree_cache_behavior (env : SysEnv) (branch : String) (db : Bool)
    (st : GitState) :
    ((worktreePath env branch (clearCache st)).1 = none →
      removeWorktree env branch db st =
        (.ok (), (worktreePath env branch (clearCache st)).2)) ∧
    (∀ p, (worktreePath env branch (clearCache st)).1 = some p →
      ∀ r st', removeWorktree env branch db st = (r, st') →
        (r = .ok () → st'.cachedWorktrees = none) ∧
        ∀ e, r = .error e →
          st'.cachedWorktrees = (worktreePath env branch (clearCache st)).2.cachedWorktrees) := by
  refine ⟨removeWorktreeNone env branch db st, ?_⟩
  intro p hp r st' h
  rw [removeWorktreeSome env branch db st p hp] at h
  rcases hA : removeWorktreeAttempt env p (worktreePath env branch (clearCache st)).2
    with ⟨res, st2⟩
  rw [hA] at h
  cases res with
  | ok u =>
    have h' : ((.ok (), (⟨none, none⟩ : GitState)) :
        Except GitError Unit × GitState) = (r, st') := h
    rw [Prod.mk.injEq] at h'
    obtain ⟨h1, h2⟩ := h'
    constructor
    · intro _
      rw [← h2]
    · intro e he
      rw [← h1] at he
      simp at he
  | error e1 =>
    have h' : ((.error e1, st2) : Except GitError Unit × GitState) = (r, st') := h
    rw [Prod.mk.injEq] at h'
    obtain ⟨h1, h2⟩ := h'
    constructor
    · intro hr
      rw [← h1] at hr
      simp at hr
    · intro e he
      rw [← h2]
      have hpres := attemptPreservesWt env p (worktreePath env branch (clearCache st)).2
      rw [hA] at hpres
      exact hpres

/-- Witness for C8 (amended): the no-op conjunct instantiated at a branch
with no attached worktree. -/
theorem removeWorktree_cache_behavior_witness :
    removeWorktree envNoSuchBranch "nosuch" false ⟨none, none⟩ =
      (.ok (), (worktreePath envNoSuchBranch "nosuch"
        (clearCache ⟨none, none⟩)).2) :=
  (removeWorktree_cache_behavior envNoSuchBranch "nosuch" false ⟨none, none⟩).1 rfl
